import Mathlib

/-!
Shallow embedding of the `pdf_summarizer` repository
(`src/summarizer.py`, `src/text_extractor.py`).

Python strings are modelled as `List Char` with ASCII character classes;
fallible Python code (code that may raise) is modelled with `Except PyError`.
External library calls (sumy TextRank, the BART transformer, pdfplumber /
PyPDF2 page extraction, python-docx paragraph extraction, the filesystem)
are modelled as explicit function parameters, so every theorem quantifies
over their behaviour.
-/

/-- Python `str` modelled as a list of characters. -/
abbrev Str := List Char

/-- ASCII whitespace, the characters matched by Python `\s` and used by
`str.split()` / `str.strip()`. -/
def pyIsSpace (c : Char) : Bool :=
  c = ' ' || c = '\t' || c = '\n' || c = '\r' || c = '\x0b' || c = '\x0c'

/-- Characters matched by the regex class `\w` (ASCII model):
alphanumerics and underscore. -/
def isWordChar (c : Char) : Bool := c.isAlphanum || c = '_'

/-- The punctuation kept by `preprocess_text`'s second regex. -/
def isKeptPunct (c : Char) : Bool :=
  c = '.' || c = ',' || c = ';' || c = ':' || c = '!' || c = '?'

/-- Characters surviving `re.sub(r'[^\w\s\.\,\;\:\!\?]', '', text)`:
word characters, whitespace and the six kept punctuation marks. -/
def isAllowedChar (c : Char) : Bool := isWordChar c || pyIsSpace c || isKeptPunct c

/-- `re.sub(r'\s+', ' ', text)`: every maximal run of whitespace becomes a
single `' '`.  The boolean records whether the previous character was
whitespace (i.e. whether we are inside a run that already emitted its space). -/
def collapseAux : Bool → Str → Str
  | _, [] => []
  | prevSpace, c :: cs =>
    if pyIsSpace c then
      if prevSpace then collapseAux true cs else ' ' :: collapseAux true cs
    else c :: collapseAux false cs

/-- `re.sub(r'\s+', ' ', text)` on a whole string. -/
def collapse (l : Str) : Str := collapseAux false l

/-- Accumulator pass of Python `str.split()` (no argument): split on runs of
whitespace, dropping empty pieces.  `acc` is the word currently being read. -/
def splitWsAux : Str → Str → List Str
  | acc, [] => if acc.isEmpty then [] else [acc]
  | acc, c :: cs =>
    if pyIsSpace c then
      if acc.isEmpty then splitWsAux [] cs else acc :: splitWsAux [] cs
    else splitWsAux (acc ++ [c]) cs

/-- Python `text.split()`. -/
def pySplit (l : Str) : List Str := splitWsAux [] l

/-- Python `len(text.split())`: the number of whitespace-delimited tokens. -/
def numTok (l : Str) : Nat := (pySplit l).length

/-- Accumulator pass of Python `str.split(sep)` for a one-character
separator: empty pieces are kept (`''.split('\n') == ['']`). -/
def splitOnCharAux (sep : Char) : Str → Str → List Str
  | acc, [] => [acc]
  | acc, c :: cs =>
    if c = sep then acc :: splitOnCharAux sep [] cs
    else splitOnCharAux sep (acc ++ [c]) cs

/-- Python `text.split(sep)` for a one-character separator. -/
def splitOnChar (sep : Char) (l : Str) : List Str := splitOnCharAux sep [] l

/-- Remove trailing whitespace (the tail half of Python `str.strip()`). -/
def dropTrailingSpaces : Str → Str
  | [] => []
  | c :: cs =>
    let r := dropTrailingSpaces cs
    if r.isEmpty && pyIsSpace c then [] else c :: r

/-- Python `text.strip()`: remove leading and trailing whitespace. -/
def pyStrip (l : Str) : Str := dropTrailingSpaces (l.dropWhile pyIsSpace)

/-- Python `' '.join(words)`. -/
def joinW : List Str → Str
  | [] => []
  | [w] => w
  | w :: v :: ws => w ++ ' ' :: joinW (v :: ws)

/-- The whitespace-normalized form of a text: its words joined by single
spaces (`' '.join(text.split())`). -/
def normalizeWs (l : Str) : Str := joinW (pySplit l)

/-! ## `src/summarizer.py` -/

/-- `DocumentSummarizer.preprocess_text`, line by line:
collapse whitespace runs to a single space, delete characters outside
`\w`, `\s` and the six punctuation marks, split into lines on `'\n'`,
keep the lines with more than 3 whitespace tokens, re-join with `'\n'`
and strip the result. -/
def preprocess_text (text : Str) : Str :=
  let collapsed := collapse text
  let kept := collapsed.filter isAllowedChar
  let lines := splitOnChar '\n' kept
  let cleaned_lines := lines.filter (fun line => 3 < numTok line)
  pyStrip (List.intercalate ['\n'] cleaned_lines)

/-- The preprocessing pipeline exactly as the specification words it:
collapse whitespace runs, remove disallowed characters, drop the lines
with 3 or fewer whitespace tokens and return the remaining lines
(joined back with `'\n'`); the spec mentions no final strip. -/
def preprocess_text_spec (text : Str) : Str :=
  let collapsed := collapse text
  let kept := collapsed.filter isAllowedChar
  List.intercalate ['\n'] ((splitOnChar '\n' kept).filter (fun line => ¬ (numTok line ≤ 3)))

/-- The loop of `DocumentSummarizer._split_text_into_chunks`: greedily append
words to `current`; as soon as `' '.join(current)` exceeds `maxLength`,
flush `' '.join(current[:-1])` as a chunk and restart from the last word.
After the loop the pending chunk is flushed if non-empty. -/
def splitChunksAux (maxLength : Nat) : List Str → List Str → List Str
  | current, [] => if current.isEmpty then [] else [joinW current]
  | current, w :: ws =>
    if maxLength < (joinW (current ++ [w])).length then
      joinW current :: splitChunksAux maxLength [w] ws
    else splitChunksAux maxLength (current ++ [w]) ws

/-- `DocumentSummarizer._split_text_into_chunks`. -/
def split_text_into_chunks (text : Str) (maxLength : Nat) : List Str :=
  splitChunksAux maxLength [] (pySplit text)

/-- The Python exceptions the embedded code can raise. -/
inductive PyError where
  | fileNotFoundError
  | valueError
  | zeroDivisionError
deriving DecidableEq

/-- The dictionary returned by `DocumentSummarizer.generate_summary`.
`compression_quot` models the float `compression_ratio` as an exact
rational (float rounding is abstracted away; the claims only concern
its definedness and value as a quotient). -/
structure SummaryResult where
  summary : Str
  original_length : Nat
  summary_length : Nat
  compression_quot : ℚ
  method : Str
deriving DecidableEq

/-- `DocumentSummarizer.generate_summary`.  `exS` stands for
`self.extractive_summarization` (its body only wraps the external sumy
library, so it is kept abstract; its second argument is `sentence_count`,
defaulted to 5 at the `"extractive"` call site) and `abS` for
`self.abstractive_summarization` (not present in the sources).  The final
dictionary divides by `len(text.split())`; when that is zero the division
raises `ZeroDivisionError`. -/
def generate_summary (exS : Str → Nat → Str) (abS : Str → Str)
    (text method : Str) : Except PyError SummaryResult :=
  let preprocessed_text := preprocess_text text
  let summary? : Except PyError Str :=
    if method = "extractive".data then .ok (exS preprocessed_text 5)
    else if method = "abstractive".data then .ok (abS preprocessed_text)
    else if method = "hybrid".data then .ok (abS (exS preprocessed_text 10))
    else .error .valueError
  match summary? with
  | .error e => .error e
  | .ok summary =>
    if numTok text = 0 then .error .zeroDivisionError
    else .ok ⟨summary, numTok text, numTok summary,
              (numTok summary : ℚ) / (numTok text : ℚ), method⟩

/-! ## `src/text_extractor.py` -/

/-- The fields of the dictionary returned by the extractors that the claims
are about (the `metadata` sub-dictionary only repackages external library
metadata and is omitted). -/
structure ExtractResult where
  text : Str
  word_count : Nat
  char_count : Nat
deriving DecidableEq

/-- The `text` accumulated by `TextExtractor._extract_from_pdf` before the
final dictionary is built: each pdfplumber page text that is truthy
(not `None`, not empty) contributes `page_text + "\n"`; if the result is
whitespace-only, every PyPDF2 fallback page appends `page.extract_text() + "\n"`. -/
def pdfRawText (pageTexts : List (Option Str)) (fallbackPageTexts : List Str) : Str :=
  let t1 := (pageTexts.filterMap
    (fun pt? => match pt? with
      | some pt => if pt.isEmpty then none else some (pt ++ ['\n'])
      | none => none)).flatten
  if (pyStrip t1).isEmpty then
    t1 ++ (fallbackPageTexts.map (fun p => p ++ ['\n'])).flatten
  else t1

/-- `TextExtractor._extract_from_pdf`: the dictionary strips `text` for the
`'text'` field but computes `word_count` and `char_count` from the
unstripped accumulated text. -/
def extract_from_pdf (pageTexts : List (Option Str)) (fallbackPageTexts : List Str) :
    ExtractResult :=
  let text := pdfRawText pageTexts fallbackPageTexts
  ⟨pyStrip text, numTok text, text.length⟩

/-- The `text` built by `TextExtractor._extract_from_docx`:
`"\n".join(paragraph.text for paragraph in doc.paragraphs)`. -/
def docxRawText (paragraphs : List Str) : Str := List.intercalate ['\n'] paragraphs

/-- `TextExtractor._extract_from_docx`: like the pdf case, `'text'` is the
stripped text while both counts come from the unstripped join. -/
def extract_from_docx (paragraphs : List Str) : ExtractResult :=
  let text := docxRawText paragraphs
  ⟨pyStrip text, numTok text, text.length⟩

/-- `pathlib.PurePath.name` (POSIX model, ordinary paths): the last
non-empty `/`-separated component. -/
def pathName (p : Str) : Str :=
  (((splitOnChar '/' p).filter (fun comp => ¬ comp.isEmpty)).getLastD [])

/-- `pathlib.PurePath.suffix` of a file name: the part of the name from its
last dot on, empty when the name has no dot, starts with its only dot, or
ends with the dot. -/
def pySuffix (name : Str) : Str :=
  let ext := name.reverse.takeWhile (fun c => c ≠ '.')
  if ext.length = name.length then []
  else if ext.length = 0 then []
  else if name.length = ext.length + 1 then []
  else '.' :: ext.reverse

/-- `Path(file_path).suffix.lower()` as used by `extract_text`
(`str.lower()` on the ASCII model is `Char.toLower` character-wise). -/
def suffixLower (p : Str) : Str := (pySuffix (pathName p)).map Char.toLower

/-- `TextExtractor.extract_text`.  `fsE` models `Path.exists` and
`pdfExtract` / `docxExtract` the two private extractors applied to the
file's on-disk content (each may itself raise, hence `Except`). -/
def extract_text (fsE : Str → Bool)
    (pdfExtract docxExtract : Str → Except PyError ExtractResult)
    (file_path : Str) : Except PyError ExtractResult :=
  if fsE file_path then
    if suffixLower file_path = ".pdf".data then pdfExtract file_path
    else if suffixLower file_path = ".docx".data then docxExtract file_path
    else .error .valueError
  else .error .fileNotFoundError

/-! ### Concrete instantiations used by witnesses and counterexamples -/

/-- A filesystem on which every path exists. -/
def fsAll : Str → Bool := fun _ => true

/-- A filesystem on which no path exists. -/
def fsNone : Str → Bool := fun _ => false

/-- A concrete stand-in pdf extractor. -/
def stubPdfExtract : Str → Except PyError ExtractResult :=
  fun p => .ok ⟨p, 1, p.length⟩

/-- A concrete stand-in docx extractor. -/
def stubDocxExtract : Str → Except PyError ExtractResult :=
  fun _ => .ok ⟨[], 0, 0⟩

/-- A concrete stand-in extractive summarizer. -/
def stubExS : Str → Nat → Str := fun s _ => s

/-- A concrete stand-in abstractive summarizer. -/
def stubAbS : Str → Str := fun s => s

/-! ## Lemmas about `str.split()` -/

/-- On a whitespace-free string the splitter returns the pending word
extended by the whole string (or nothing when both are empty). -/
theorem splitWsAux_nonspace (w : Str) (h : ∀ c ∈ w, pyIsSpace c = false) :
    ∀ acc : Str, splitWsAux acc w = if (acc ++ w).isEmpty then [] else [acc ++ w] := by
  induction w with
  | nil => intro acc; simp [splitWsAux]
  | cons c cs ih =>
    intro acc
    have hc : ¬ (pyIsSpace c = true) := by
      simp [h c (List.mem_cons_self c cs)]
    have ih' := ih (fun d hd => h d (List.mem_cons_of_mem c hd)) (acc ++ [c])
    show splitWsAux acc (c :: cs) = _
    rw [show splitWsAux acc (c :: cs) = splitWsAux (acc ++ [c]) cs by
      simp only [splitWsAux]; rw [if_neg hc]]
    rw [ih']
    simp [List.append_assoc]

/-- Every token produced by the splitter is non-empty and whitespace-free
(provided the pending word is whitespace-free). -/
theorem mem_splitWsAux (cs : Str) :
    ∀ acc : Str, (∀ c ∈ acc, pyIsSpace c = false) →
      ∀ w ∈ splitWsAux acc cs, w ≠ [] ∧ ∀ c ∈ w, pyIsSpace c = false := by
  induction cs with
  | nil =>
    intro acc hacc w hw
    simp only [splitWsAux] at hw
    by_cases h : acc.isEmpty = true
    · rw [if_pos h] at hw
      exact absurd hw (List.not_mem_nil w)
    · rw [if_neg h] at hw
      rw [List.mem_singleton] at hw
      subst hw
      exact ⟨fun hnil => by simp [hnil] at h, hacc⟩
  | cons c cs ih =>
    intro acc hacc w hw
    simp only [splitWsAux] at hw
    by_cases hc : pyIsSpace c = true
    · rw [if_pos hc] at hw
      by_cases ha : acc.isEmpty = true
      · rw [if_pos ha] at hw
        exact ih [] (by simp) w hw
      · rw [if_neg ha] at hw
        rw [List.mem_cons] at hw
        rcases hw with rfl | hw
        · exact ⟨fun hnil => by simp [hnil] at ha, hacc⟩
        · exact ih [] (by simp) w hw
    · rw [if_neg hc] at hw
      refine ih (acc ++ [c]) ?_ w hw
      intro d hd
      rcases List.mem_append.mp hd with hd | hd
      · exact hacc d hd
      · rw [List.mem_singleton] at hd
        subst hd
        exact Bool.eq_false_iff.mpr hc

/-- Every word of `pySplit` is non-empty and whitespace-free. -/
theorem mem_pySplit (l : Str) (w : Str) (hw : w ∈ pySplit l) :
    w ≠ [] ∧ ∀ c ∈ w, pyIsSpace c = false :=
  mem_splitWsAux l [] (by simp) w hw

/-- A non-empty whitespace-free string splits to itself. -/
theorem pySplit_word (w : Str) (hne : w ≠ [])
    (h : ∀ c ∈ w, pyIsSpace c = false) : pySplit w = [w] := by
  have := splitWsAux_nonspace w h []
  simpa [pySplit, hne] using this

/-- Splitting distributes over a space separator. -/
theorem splitWsAux_append_space (a : Str) :
    ∀ acc b : Str, splitWsAux acc (a ++ ' ' :: b) = splitWsAux acc a ++ splitWsAux [] b := by
  induction a with
  | nil =>
    intro acc b
    simp only [List.nil_append, splitWsAux, show pyIsSpace ' ' = true from rfl, if_true]
    by_cases h : acc.isEmpty <;> simp [h]
  | cons c cs ih =>
    intro acc b
    simp only [List.cons_append, splitWsAux]
    by_cases hc : pyIsSpace c
    · simp only [hc, if_true]
      by_cases ha : acc.isEmpty <;> simp [ha, ih]
    · simp [hc, ih]

/-- `pySplit (joinW ws)` splits each word separately: the separators the
join inserts are always token boundaries. -/
theorem pySplit_joinW : ∀ ws : List Str, pySplit (joinW ws) = (ws.map pySplit).flatten := by
  intro ws
  induction ws with
  | nil => rfl
  | cons w vs ih =>
    cases vs with
    | nil => simp [joinW]
    | cons v us =>
      show pySplit (w ++ ' ' :: joinW (v :: us)) = _
      unfold pySplit at *
      rw [splitWsAux_append_space w [] (joinW (v :: us))]
      simp only [List.map_cons, List.flatten_cons]
      rw [ih]
      simp

/-- If each word splits to itself, splitting and flattening restores the list. -/
theorem flatten_map_pySplit (p : List Str) (h : ∀ w ∈ p, pySplit w = [w]) :
    (p.map pySplit).flatten = p := by
  induction p with
  | nil => rfl
  | cons w ws ih =>
    simp only [List.map_cons, List.flatten_cons, h w (List.mem_cons_self w ws)]
    rw [ih (fun v hv => h v (List.mem_cons_of_mem w hv))]
    rfl

/-! ## Lemmas about whitespace collapsing and stripping -/

/-- Every character emitted by `collapseAux` is either the inserted space
or a non-whitespace character of the input. -/
theorem mem_collapseAux : ∀ (l : Str) (b : Bool) (c : Char), c ∈ collapseAux b l →
    c = ' ' ∨ (c ∈ l ∧ pyIsSpace c = false) := by
  intro l
  induction l with
  | nil => intro b c hc; simp [collapseAux] at hc
  | cons d ds ih =>
    intro b c hc
    simp only [collapseAux] at hc
    by_cases hd : pyIsSpace d = true
    · rw [if_pos hd] at hc
      by_cases hb : b = true
      · rw [if_pos hb] at hc
        rcases ih true c hc with h | ⟨h1, h2⟩
        · exact Or.inl h
        · exact Or.inr ⟨List.mem_cons_of_mem d h1, h2⟩
      · rw [if_neg hb] at hc
        rw [List.mem_cons] at hc
        rcases hc with rfl | hc
        · exact Or.inl rfl
        · rcases ih true c hc with h | ⟨h1, h2⟩
          · exact Or.inl h
          · exact Or.inr ⟨List.mem_cons_of_mem d h1, h2⟩
    · rw [if_neg hd] at hc
      rw [List.mem_cons] at hc
      rcases hc with rfl | hc
      · exact Or.inr ⟨List.mem_cons_self c ds, Bool.eq_false_iff.mpr hd⟩
      · rcases ih false c hc with h | ⟨h1, h2⟩
        · exact Or.inl h
        · exact Or.inr ⟨List.mem_cons_of_mem d h1, h2⟩

/-- The first character of a string is not whitespace (vacuous when empty). -/
def headNotSpace : Str → Bool
  | [] => true
  | c :: _ => !pyIsSpace c

/-- A string is in collapsed form: every whitespace character is `' '` and
never followed by another whitespace character. -/
def collapsedB : Str → Bool
  | [] => true
  | c :: cs => (!pyIsSpace c || (c = ' ' && headNotSpace cs)) && collapsedB cs

/-- After a space was just emitted, the collapsed output never starts with
whitespace. -/
theorem headNotSpace_collapseAux_true : ∀ l : Str, headNotSpace (collapseAux true l) = true := by
  intro l
  induction l with
  | nil => rfl
  | cons c cs ih =>
    simp only [collapseAux]
    by_cases hc : pyIsSpace c = true
    · rw [if_pos hc]; simpa using ih
    · rw [if_neg hc]
      simp [headNotSpace, Bool.eq_false_iff.mpr hc]

/-- The output of `collapseAux` is always in collapsed form. -/
theorem collapsedB_collapseAux : ∀ (l : Str) (b : Bool), collapsedB (collapseAux b l) = true := by
  intro l
  induction l with
  | nil => intro b; rfl
  | cons c cs ih =>
    intro b
    simp only [collapseAux]
    by_cases hc : pyIsSpace c = true
    · rw [if_pos hc]
      by_cases hb : b = true
      · rw [if_pos hb]; exact ih true
      · rw [if_neg hb]
        simp only [collapsedB]
        rw [headNotSpace_collapseAux_true cs, ih true]
        simp
    · rw [if_neg hc]
      simp only [collapsedB]
      rw [ih false]
      simp [Bool.eq_false_iff.mpr hc]

/-- When the input does not start with whitespace, the run-tracking flag is
irrelevant. -/
theorem collapseAux_true_of_headNotSpace (l : Str) (h : headNotSpace l = true) :
    collapseAux true l = collapseAux false l := by
  cases l with
  | nil => rfl
  | cons c cs =>
    simp only [headNotSpace] at h
    simp only [collapseAux]
    rw [if_neg (by simp at h; simp [h]), if_neg (by simp at h; simp [h])]

/-- A string already in collapsed form is a fixed point of `collapse`. -/
theorem collapse_of_collapsedB : ∀ l : Str, collapsedB l = true → collapse l = l := by
  intro l
  induction l with
  | nil => intro _; rfl
  | cons c cs ih =>
    intro h
    simp only [collapsedB, Bool.and_eq_true, Bool.or_eq_true] at h
    obtain ⟨h1, h2⟩ := h
    have ihcs : collapseAux false cs = cs := ih h2
    show collapseAux false (c :: cs) = c :: cs
    simp only [collapseAux]
    by_cases hc : pyIsSpace c = true
    · rw [if_pos hc, if_neg (by simp)]
      rcases h1 with h1 | h1
      · simp [hc] at h1
      · simp only [Bool.and_eq_true, decide_eq_true_eq] at h1
        obtain ⟨hce, hhd⟩ := h1
        rw [collapseAux_true_of_headNotSpace cs hhd, ihcs, hce]
    · rw [if_neg hc, ihcs]

/-- Dropping leading whitespace from a collapsed string keeps it collapsed. -/
theorem collapsedB_dropWhile (l : Str) (h : collapsedB l = true) :
    collapsedB (l.dropWhile pyIsSpace) = true := by
  cases l with
  | nil => exact h
  | cons c cs =>
    simp only [collapsedB, Bool.and_eq_true, Bool.or_eq_true] at h
    obtain ⟨h1, h2⟩ := h
    by_cases hc : pyIsSpace c = true
    · rw [List.dropWhile_cons_of_pos hc]
      rcases h1 with h1 | h1
      · simp [hc] at h1
      · simp only [Bool.and_eq_true, decide_eq_true_eq] at h1
        obtain ⟨-, hhd⟩ := h1
        cases cs with
        | nil => exact h2
        | cons d ds =>
          simp only [headNotSpace] at hhd
          rw [List.dropWhile_cons_of_neg (by simp at hhd; simp [hhd])]
          exact h2
    · rw [List.dropWhile_cons_of_neg hc]
      simp only [collapsedB, Bool.and_eq_true, Bool.or_eq_true]
      exact ⟨h1, h2⟩

/-- `dropTrailingSpaces` keeps the head of the string when non-empty. -/
theorem dropTrailingSpaces_head (l : Str) (h : dropTrailingSpaces l ≠ []) :
    (dropTrailingSpaces l).head? = l.head? := by
  cases l with
  | nil => rfl
  | cons c cs =>
    simp only [dropTrailingSpaces] at h ⊢
    by_cases hc : ((dropTrailingSpaces cs).isEmpty && pyIsSpace c) = true
    · rw [if_pos hc] at h; exact absurd rfl h
    · rw [if_neg hc]; rfl

/-- Dropping trailing whitespace from a collapsed string keeps it collapsed. -/
theorem collapsedB_dropTrailingSpaces : ∀ l : Str, collapsedB l = true →
    collapsedB (dropTrailingSpaces l) = true := by
  intro l
  induction l with
  | nil => intro h; exact h
  | cons c cs ih =>
    intro h
    simp only [collapsedB, Bool.and_eq_true, Bool.or_eq_true] at h
    obtain ⟨h1, h2⟩ := h
    simp only [dropTrailingSpaces]
    by_cases hc : ((dropTrailingSpaces cs).isEmpty && pyIsSpace c) = true
    · rw [if_pos hc]; rfl
    · rw [if_neg hc]
      simp only [collapsedB, Bool.and_eq_true, Bool.or_eq_true]
      refine ⟨?_, ih h2⟩
      rcases h1 with h1 | h1
      · exact Or.inl h1
      · simp only [Bool.and_eq_true, decide_eq_true_eq] at h1
        obtain ⟨hce, hhd⟩ := h1
        refine Or.inr ?_
        simp only [Bool.and_eq_true, decide_eq_true_eq]
        refine ⟨hce, ?_⟩
        by_cases hr : dropTrailingSpaces cs = []
        · rw [hr]; rfl
        · have hh := dropTrailingSpaces_head cs hr
          cases hcs : dropTrailingSpaces cs with
          | nil => exact absurd hcs hr
          | cons d ds =>
            rw [hcs] at hh
            cases cs with
            | nil => simp [dropTrailingSpaces] at hcs
            | cons e es =>
              simp only [List.head?] at hh
              injection hh with hde
              subst hde
              simp only [headNotSpace] at hhd ⊢
              exact hhd

/-- Collapsing whitespace runs does not change the token sequence. -/
theorem splitWsAux_collapseAux : ∀ (cs : Str) (acc : Str) (b : Bool), (b = true → acc = []) →
    splitWsAux acc (collapseAux b cs) = splitWsAux acc cs := by
  intro cs
  induction cs with
  | nil => intro acc b _; rfl
  | cons c cs ih =>
    intro acc b hb
    simp only [collapseAux]
    by_cases hc : pyIsSpace c = true
    · rw [if_pos hc]
      by_cases hbt : b = true
      · rw [if_pos hbt]
        have ha : acc = [] := hb hbt
        subst ha
        rw [ih [] true (fun _ => rfl)]
        show splitWsAux [] cs = splitWsAux [] (c :: cs)
        simp only [splitWsAux]
        rw [if_pos hc, if_pos List.isEmpty_nil]
      · rw [if_neg hbt]
        show splitWsAux acc (' ' :: collapseAux true cs) = splitWsAux acc (c :: cs)
        simp only [splitWsAux, show pyIsSpace ' ' = true from rfl, if_true]
        rw [if_pos hc]
        by_cases ha : acc.isEmpty = true
        · rw [if_pos ha, if_pos ha, ih [] true (fun _ => rfl)]
        · rw [if_neg ha, if_neg ha, ih [] true (fun _ => rfl)]
    · rw [if_neg hc]
      show splitWsAux acc (c :: collapseAux false cs) = splitWsAux acc (c :: cs)
      simp only [splitWsAux]
      rw [if_neg hc, if_neg hc, ih (acc ++ [c]) false (by simp)]

/-- `text.split()` is unchanged by whitespace collapsing. -/
theorem pySplit_collapse (l : Str) : pySplit (collapse l) = pySplit l :=
  splitWsAux_collapseAux l [] false (by simp)

/-- On an all-whitespace string the splitter just flushes the pending word. -/
theorem splitWsAux_allspace : ∀ cs : Str, (∀ c ∈ cs, pyIsSpace c = true) →
    ∀ acc : Str, splitWsAux acc cs = if acc.isEmpty then [] else [acc] := by
  intro cs
  induction cs with
  | nil => intro _ acc; rfl
  | cons c cs ih =>
    intro h acc
    have hc : pyIsSpace c = true := h c (List.mem_cons_self c cs)
    have ihs := ih (fun d hd => h d (List.mem_cons_of_mem c hd)) []
    simp only [splitWsAux]
    rw [if_pos hc]
    simp only [List.isEmpty_nil, if_true] at ihs
    by_cases ha : acc.isEmpty = true
    · rw [if_pos ha, if_pos ha, ihs]
    · rw [if_neg ha, if_neg ha, ihs]

/-- If dropping trailing whitespace leaves nothing, the string was all
whitespace. -/
theorem allspace_of_dropTrailingSpaces_eq_nil : ∀ cs : Str, dropTrailingSpaces cs = [] →
    ∀ c ∈ cs, pyIsSpace c = true := by
  intro cs
  induction cs with
  | nil => intro _ c hc; simp at hc
  | cons d ds ih =>
    intro h c hc
    simp only [dropTrailingSpaces] at h
    by_cases hcond : ((dropTrailingSpaces ds).isEmpty && pyIsSpace d) = true
    · simp only [Bool.and_eq_true, List.isEmpty_iff] at hcond
      obtain ⟨hnil, hd⟩ := hcond
      rw [List.mem_cons] at hc
      rcases hc with rfl | hc
      · exact hd
      · exact ih hnil c hc
    · rw [if_neg hcond] at h
      exact absurd h (List.cons_ne_nil d _)

/-- Dropping trailing whitespace does not change the token sequence. -/
theorem splitWsAux_dropTrailingSpaces : ∀ (cs : Str) (acc : Str),
    splitWsAux acc (dropTrailingSpaces cs) = splitWsAux acc cs := by
  intro cs
  induction cs with
  | nil => intro acc; rfl
  | cons c cs ih =>
    intro acc
    simp only [dropTrailingSpaces]
    by_cases hcond : ((dropTrailingSpaces cs).isEmpty && pyIsSpace c) = true
    · rw [if_pos hcond]
      simp only [Bool.and_eq_true, List.isEmpty_iff] at hcond
      obtain ⟨hnil, hc⟩ := hcond
      have hall : ∀ d ∈ cs, pyIsSpace d = true := allspace_of_dropTrailingSpaces_eq_nil cs hnil
      have hrs := splitWsAux_allspace cs hall []
      simp only [List.isEmpty_nil, if_true] at hrs
      show splitWsAux acc [] = splitWsAux acc (c :: cs)
      simp only [splitWsAux]
      rw [if_pos hc]
      by_cases ha : acc.isEmpty = true
      · rw [if_pos ha, if_pos ha, hrs]
      · rw [if_neg ha, if_neg ha, hrs]
    · rw [if_neg hcond]
      show splitWsAux acc (c :: dropTrailingSpaces cs) = splitWsAux acc (c :: cs)
      simp only [splitWsAux]
      by_cases hc : pyIsSpace c = true
      · rw [if_pos hc, if_pos hc]
        by_cases ha : acc.isEmpty = true
        · rw [if_pos ha, if_pos ha, ih []]
        · rw [if_neg ha, if_neg ha, ih []]
      · rw [if_neg hc, if_neg hc, ih (acc ++ [c])]

/-- Dropping leading whitespace does not change the token sequence. -/
theorem splitWsAux_dropWhile : ∀ l : Str,
    splitWsAux [] (l.dropWhile pyIsSpace) = splitWsAux [] l := by
  intro l
  induction l with
  | nil => rfl
  | cons c cs ih =>
    by_cases hc : pyIsSpace c = true
    · rw [List.dropWhile_cons_of_pos hc, ih]
      show splitWsAux [] cs = splitWsAux [] (c :: cs)
      simp only [splitWsAux]
      rw [if_pos hc, if_pos List.isEmpty_nil]
    · rw [List.dropWhile_cons_of_neg (by simpa using hc)]

/-- `text.strip().split() == text.split()`. -/
theorem pySplit_pyStrip (l : Str) : pySplit (pyStrip l) = pySplit l := by
  show splitWsAux [] (dropTrailingSpaces (l.dropWhile pyIsSpace)) = splitWsAux [] l
  rw [splitWsAux_dropTrailingSpaces, splitWsAux_dropWhile]

/-- Stripping does not change the token count. -/
theorem numTok_pyStrip (l : Str) : numTok (pyStrip l) = numTok l := by
  unfold numTok
  rw [pySplit_pyStrip]

/-- Collapsing does not change the token count. -/
theorem numTok_collapse (l : Str) : numTok (collapse l) = numTok l := by
  unfold numTok
  rw [pySplit_collapse]

/-- `dropTrailingSpaces` only removes characters. -/
theorem dropTrailingSpaces_sublist : ∀ l : Str, List.Sublist (dropTrailingSpaces l) l := by
  intro l
  induction l with
  | nil => exact List.Sublist.refl []
  | cons c cs ih =>
    simp only [dropTrailingSpaces]
    by_cases hcond : ((dropTrailingSpaces cs).isEmpty && pyIsSpace c) = true
    · rw [if_pos hcond]; exact List.nil_sublist _
    · rw [if_neg hcond]; exact List.Sublist.cons₂ c ih

/-- `strip` only removes characters. -/
theorem pyStrip_sublist (l : Str) : List.Sublist (pyStrip l) l :=
  (dropTrailingSpaces_sublist _).trans (List.dropWhile_sublist pyIsSpace)

/-- After dropping leading whitespace the string does not start with
whitespace. -/
theorem headNotSpace_dropWhile : ∀ l : Str, headNotSpace (l.dropWhile pyIsSpace) = true := by
  intro l
  induction l with
  | nil => rfl
  | cons c cs ih =>
    by_cases hc : pyIsSpace c = true
    · rw [List.dropWhile_cons_of_pos hc]; exact ih
    · rw [List.dropWhile_cons_of_neg (by simpa using hc)]
      simp [headNotSpace, Bool.eq_false_iff.mpr hc]

/-- A string that does not start with whitespace is a fixed point of
`dropWhile pyIsSpace`. -/
theorem dropWhile_of_headNotSpace (l : Str) (h : headNotSpace l = true) :
    l.dropWhile pyIsSpace = l := by
  cases l with
  | nil => rfl
  | cons c cs =>
    simp only [headNotSpace, Bool.not_eq_true'] at h
    exact List.dropWhile_cons_of_neg (by simp [h])

/-- `dropTrailingSpaces` also keeps a whitespace-free head property. -/
theorem headNotSpace_dropTrailingSpaces (l : Str) (h : headNotSpace l = true) :
    headNotSpace (dropTrailingSpaces l) = true := by
  cases l with
  | nil => rfl
  | cons c cs =>
    simp only [dropTrailingSpaces]
    by_cases hcond : ((dropTrailingSpaces cs).isEmpty && pyIsSpace c) = true
    · rw [if_pos hcond]; rfl
    · rw [if_neg hcond]; exact h

/-- `dropTrailingSpaces` is idempotent. -/
theorem dropTrailingSpaces_idem : ∀ l : Str,
    dropTrailingSpaces (dropTrailingSpaces l) = dropTrailingSpaces l := by
  intro l
  induction l with
  | nil => rfl
  | cons c cs ih =>
    simp only [dropTrailingSpaces]
    by_cases hcond : ((dropTrailingSpaces cs).isEmpty && pyIsSpace c) = true
    · rw [if_pos hcond]; rfl
    · rw [if_neg hcond]
      simp only [dropTrailingSpaces, ih]
      rw [if_neg hcond]

/-- `strip` is idempotent. -/
theorem pyStrip_idem (l : Str) : pyStrip (pyStrip l) = pyStrip l := by
  show pyStrip (dropTrailingSpaces (l.dropWhile pyIsSpace)) = _
  unfold pyStrip
  rw [dropWhile_of_headNotSpace _
    (headNotSpace_dropTrailingSpaces _ (headNotSpace_dropWhile l))]
  exact dropTrailingSpaces_idem _

/-! ## Lemmas about `preprocess_text` -/

/-- Splitting on an absent separator yields a single piece. -/
theorem splitOnCharAux_not_mem (sep : Char) : ∀ (cs : Str) (acc : Str), sep ∉ cs →
    splitOnCharAux sep acc cs = [acc ++ cs] := by
  intro cs
  induction cs with
  | nil => intro acc _; simp [splitOnCharAux]
  | cons c cs ih =>
    intro acc h
    simp only [splitOnCharAux]
    have hne : ¬ (c = sep) := by
      intro hc
      subst hc
      exact h (List.mem_cons_self c cs)
    rw [if_neg hne, ih (acc ++ [c]) (fun hc => h (List.mem_cons_of_mem c hc))]
    simp

/-- `text.split(sep)` on a separator-free string is `[text]`. -/
theorem splitOnChar_not_mem (sep : Char) (l : Str) (h : sep ∉ l) :
    splitOnChar sep l = [l] := by
  have := splitOnCharAux_not_mem sep l [] h
  simpa [splitOnChar] using this

/-- `'\n'.join([a])` and `'\n'.join([])`. -/
theorem intercalate_single (s : Str) (a : Str) : List.intercalate s [a] = a := by
  simp [List.intercalate]

/-- Since the whitespace collapse has already replaced every newline by a
space, `preprocess_text` reduces to a one-line pipeline: keep the cleaned
text if it has more than 3 tokens (stripped), else return the empty string. -/
theorem preprocess_eq (t : Str) :
    preprocess_text t =
      if 3 < numTok ((collapse t).filter isAllowedChar)
      then pyStrip ((collapse t).filter isAllowedChar)
      else [] := by
  simp only [preprocess_text]
  have hnl : '\n' ∉ (collapse t).filter isAllowedChar := by
    intro hmem
    have hc := List.mem_filter.mp hmem
    rcases mem_collapseAux t false '\n' hc.1 with h | ⟨-, h⟩
    · exact absurd h (by decide)
    · exact absurd h (by decide)
  rw [splitOnChar_not_mem '\n' _ hnl]
  by_cases h3 : 3 < numTok ((collapse t).filter isAllowedChar)
  · rw [if_pos h3]
    have : List.filter (fun line => decide (3 < numTok line))
        [(collapse t).filter isAllowedChar] = [(collapse t).filter isAllowedChar] := by
      simp [List.filter, h3]
    rw [this, intercalate_single]
  · rw [if_neg h3]
    have : List.filter (fun line => decide (3 < numTok line))
        [(collapse t).filter isAllowedChar] = [] := by
      simp [List.filter, h3]
    rw [this]
    rfl

/-- Preprocessing the empty string gives the empty string. -/
theorem preprocess_nil : preprocess_text [] = [] := rfl

/-- If every character of a string is allowed then so is every character of
its whitespace collapse, and the removal pass keeps it unchanged. -/
theorem filter_allowed_collapse (l : Str) (h : ∀ c ∈ l, isAllowedChar c = true) :
    (collapse l).filter isAllowedChar = collapse l := by
  rw [List.filter_eq_self]
  intro c hc
  rcases mem_collapseAux l false c hc with hsp | ⟨hmem, -⟩
  · subst hsp; decide
  · exact h c hmem

/-- The output of `preprocess_text` only contains allowed characters. -/
theorem preprocess_allowed (t : Str) : ∀ c ∈ preprocess_text t, isAllowedChar c = true := by
  intro c hc
  rw [preprocess_eq] at hc
  by_cases h3 : 3 < numTok ((collapse t).filter isAllowedChar)
  · rw [if_pos h3] at hc
    have hmem := (pyStrip_sublist _).subset hc
    exact (List.mem_filter.mp hmem).2
  · rw [if_neg h3] at hc
    simp at hc

/-- The output of `preprocess_text` applied to an all-allowed string is
either empty or the stripped collapse of that string, and in the second
case it carries the same tokens as the input. -/
theorem preprocess_of_allowed (p : Str) (h : ∀ c ∈ p, isAllowedChar c = true) :
    preprocess_text p = if 3 < numTok p then pyStrip (collapse p) else [] := by
  rw [preprocess_eq, filter_allowed_collapse p h, numTok_collapse]

/-- `preprocess_text ∘ preprocess_text` always lands on a fixed point of
`preprocess_text`:  a second application can still merge double spaces
left behind by character removal, but after that nothing changes. -/
theorem preprocess_preprocess_fixed (t : Str) :
    preprocess_text (preprocess_text (preprocess_text t)) =
      preprocess_text (preprocess_text t) := by
  by_cases h3 : 3 < numTok ((collapse t).filter isAllowedChar)
  · -- the first pass kept the (single) line
    have hp1 : preprocess_text t = pyStrip ((collapse t).filter isAllowedChar) := by
      rw [preprocess_eq, if_pos h3]
    have hall1 : ∀ c ∈ preprocess_text t, isAllowedChar c = true := preprocess_allowed t
    have htok1 : numTok (preprocess_text t) = numTok ((collapse t).filter isAllowedChar) := by
      rw [hp1, numTok_pyStrip]
    have hp2 : preprocess_text (preprocess_text t) = pyStrip (collapse (preprocess_text t)) := by
      rw [preprocess_of_allowed _ hall1, if_pos (htok1 ▸ h3)]
    have hall2 : ∀ c ∈ preprocess_text (preprocess_text t), isAllowedChar c = true :=
      preprocess_allowed _
    have htok2 : numTok (preprocess_text (preprocess_text t)) = numTok (preprocess_text t) := by
      rw [hp2, numTok_pyStrip, numTok_collapse]
    have hcol2 : collapsedB (preprocess_text (preprocess_text t)) = true := by
      rw [hp2]
      unfold pyStrip
      exact collapsedB_dropTrailingSpaces _
        (collapsedB_dropWhile _ (collapsedB_collapseAux _ false))
    rw [preprocess_of_allowed _ hall2, if_pos (by rw [htok2, htok1]; exact h3)]
    rw [collapse_of_collapsedB _ hcol2, hp2, pyStrip_idem]
  · -- the first pass dropped everything
    have hp1 : preprocess_text t = [] := by
      rw [preprocess_eq, if_neg h3]
    rw [hp1, preprocess_nil, preprocess_nil]

/-! ## Lemmas about `_split_text_into_chunks` -/

/-- Every chunk list produced by the greedy loop is the image under
`' '.join` of an ordered partition of the pending words plus the remaining
words: word order is preserved and no word is split or dropped. -/
theorem splitChunksAux_pieces (maxLength : Nat) : ∀ (ws current : List Str),
    ∃ pieces : List (List Str),
      splitChunksAux maxLength current ws = pieces.map joinW ∧
      pieces.flatten = current ++ ws := by
  intro ws
  induction ws with
  | nil =>
    intro current
    simp only [splitChunksAux]
    by_cases hcur : current.isEmpty = true
    · rw [if_pos hcur]
      exact ⟨[], rfl, by simp [List.isEmpty_iff.mp hcur]⟩
    · rw [if_neg hcur]
      exact ⟨[current], rfl, by simp⟩
  | cons w ws ih =>
    intro current
    simp only [splitChunksAux]
    by_cases hlen : maxLength < (joinW (current ++ [w])).length
    · rw [if_pos hlen]
      obtain ⟨pieces, hmap, hflat⟩ := ih [w]
      refine ⟨current :: pieces, ?_, ?_⟩
      · simp [List.map_cons, hmap]
      · simp [hflat]
    · rw [if_neg hlen]
      obtain ⟨pieces, hmap, hflat⟩ := ih (current ++ [w])
      refine ⟨pieces, hmap, ?_⟩
      rw [hflat]
      simp

/-- Length invariant of the greedy loop: every emitted chunk fits in
`maxLength` unless it is a single word (which is then itself one of the
pending or remaining words). -/
theorem splitChunksAux_bound (maxLength : Nat) : ∀ (ws current : List Str),
    ((joinW current).length ≤ maxLength ∨ ∃ w, current = [w]) →
    ∀ c ∈ splitChunksAux maxLength current ws,
      c.length ≤ maxLength ∨ (c ∈ current ++ ws ∧ maxLength < c.length) := by
  intro ws
  induction ws with
  | nil =>
    intro current hinv c hc
    simp only [splitChunksAux] at hc
    by_cases hcur : current.isEmpty = true
    · rw [if_pos hcur] at hc
      exact absurd hc (List.not_mem_nil c)
    · rw [if_neg hcur] at hc
      rw [List.mem_singleton] at hc
      subst hc
      rcases hinv with h | ⟨w, rfl⟩
      · exact Or.inl h
      · by_cases hw : (joinW [w]).length ≤ maxLength
        · exact Or.inl hw
        · exact Or.inr ⟨by simp [joinW], Nat.lt_of_not_le hw⟩
  | cons w ws ih =>
    intro current hinv c hc
    simp only [splitChunksAux] at hc
    by_cases hlen : maxLength < (joinW (current ++ [w])).length
    · rw [if_pos hlen] at hc
      rw [List.mem_cons] at hc
      rcases hc with rfl | hc
      · rcases hinv with h | ⟨v, rfl⟩
        · exact Or.inl h
        · by_cases hv : (joinW [v]).length ≤ maxLength
          · exact Or.inl hv
          · refine Or.inr ⟨?_, Nat.lt_of_not_le hv⟩
            simp [joinW]
      · rcases ih [w] (Or.inr ⟨w, rfl⟩) c hc with h | ⟨hmem, hgt⟩
        · exact Or.inl h
        · refine Or.inr ⟨?_, hgt⟩
          rcases List.mem_append.mp hmem with hm | hm
          · rw [List.mem_singleton] at hm
            subst hm
            exact List.mem_append_right current (List.mem_cons_self c ws)
          · exact List.mem_append_right current (List.mem_cons_of_mem w hm)
    · rw [if_neg hlen] at hc
      rcases ih (current ++ [w]) (Or.inl (Nat.le_of_not_lt hlen)) c hc with h | ⟨hmem, hgt⟩
      · exact Or.inl h
      · refine Or.inr ⟨?_, hgt⟩
        rw [List.append_assoc, List.singleton_append] at hmem
        exact hmem

/-! ## Claim theorems -/

/-- Claim C1, as stated, is false: for input `"abcdef"` and positive
`max_length = 3` the single word exceeds the budget and the loop first
flushes the join of the empty list, so the chunk list is `["", "abcdef"]`
and joining it with a single space gives `" abcdef"`, which is not the
whitespace-normalized input `"abcdef"`. -/
theorem C1_counterexample :
    0 < 3 ∧
    split_text_into_chunks "abcdef".data 3 = ["".data, "abcdef".data] ∧
    joinW (split_text_into_chunks "abcdef".data 3) ≠ normalizeWs "abcdef".data :=
  ⟨by decide, by decide, by decide⟩

/-- Claim C1 (amended): for every text and positive `max_length`, the word
sequences of the chunks concatenate to the word sequence of the input (so
no word is lost, duplicated, reordered or split across chunks), the chunks
joined by a single space carry exactly the input's whitespace-delimited
words (the joined string itself may differ from the normalized input by
one empty chunk emitted when a single word exceeds `max_length`), and each
chunk is at most `max_length` characters long except a chunk that is a
single input word longer than `max_length`. -/
theorem C1_chunks_spec (t : Str) (maxLength : Nat) (hpos : 0 < maxLength) :
    ((split_text_into_chunks t maxLength).map pySplit).flatten = pySplit t ∧
    pySplit (joinW (split_text_into_chunks t maxLength)) = pySplit t ∧
    ∀ c ∈ split_text_into_chunks t maxLength,
      c.length ≤ maxLength ∨ (c ∈ pySplit t ∧ maxLength < c.length) := by
  obtain ⟨pieces, hmap, hflat⟩ := splitChunksAux_pieces maxLength (pySplit t) []
  simp only [List.nil_append] at hflat
  have hwords : ∀ w ∈ pySplit t, pySplit w = [w] := by
    intro w hw
    obtain ⟨hne, hns⟩ := mem_pySplit t w hw
    exact pySplit_word w hne hns
  have hpiece : ∀ p ∈ pieces, pySplit (joinW p) = p := by
    intro p hp
    rw [pySplit_joinW]
    refine flatten_map_pySplit p ?_
    intro w hw
    exact hwords w (hflat ▸ List.mem_flatten.mpr ⟨p, hp, hw⟩)
  have h1 : ((split_text_into_chunks t maxLength).map pySplit).flatten = pySplit t := by
    show ((splitChunksAux maxLength [] (pySplit t)).map pySplit).flatten = pySplit t
    rw [hmap, List.map_map]
    rw [show pieces.map (pySplit ∘ joinW) = pieces.map id from
      List.map_congr_left (fun p hp => hpiece p hp)]
    rw [List.map_id]
    exact hflat
  refine ⟨h1, ?_, ?_⟩
  · rw [pySplit_joinW]
    exact h1
  · intro c hc
    have hb := splitChunksAux_bound maxLength (pySplit t) []
      (Or.inl (Nat.zero_le maxLength)) c hc
    simpa using hb

/-- Witness for the amended claim C1 at a concrete text and budget. -/
theorem C1_chunks_spec_witness :
    0 < 7 ∧
    (((split_text_into_chunks "the quick fox".data 7).map pySplit).flatten =
        pySplit "the quick fox".data ∧
      pySplit (joinW (split_text_into_chunks "the quick fox".data 7)) =
        pySplit "the quick fox".data ∧
      ∀ c ∈ split_text_into_chunks "the quick fox".data 7,
        c.length ≤ 7 ∨ (c ∈ pySplit "the quick fox".data ∧ 7 < c.length)) :=
  ⟨by decide, C1_chunks_spec "the quick fox".data 7 (by decide)⟩

/-- Claim C2: the claim is right and the code is wrong.  For an input with
zero whitespace tokens the dictionary entry
`len(summary.split()) / len(text.split())` divides by zero, and
`generate_summary` has no guard and no `EmptyInput` handling, so an
unhandled `ZeroDivisionError` propagates (modelled as the returned
exception value), whatever the summarization backends do. -/
theorem C2_zero_division (exS : Str → Nat → Str) (abS : Str → Str)
    (t : Str) (h : numTok t = 0) :
    generate_summary exS abS t "extractive".data = .error .zeroDivisionError := by
  have hstep : generate_summary exS abS t "extractive".data =
      if numTok t = 0 then .error .zeroDivisionError
      else .ok ⟨exS (preprocess_text t) 5, numTok t,
                numTok (exS (preprocess_text t) 5),
                (numTok (exS (preprocess_text t) 5) : ℚ) / (numTok t : ℚ),
                "extractive".data⟩ := rfl
  rw [hstep, if_pos h]

/-- Witness for claim C2 at the empty string. -/
theorem C2_zero_division_witness :
    numTok "".data = 0 ∧
    generate_summary stubExS stubAbS "".data "extractive".data =
      .error .zeroDivisionError :=
  ⟨by decide, C2_zero_division stubExS stubAbS "".data (by decide)⟩

/-- Claim C3, as stated, is false: `preprocess_text` is not idempotent.
Removing the disallowed `'@'` from `"a @ b c d"` leaves the double space
`"a  b c d"`, which a second application collapses to `"a b c d"`. -/
theorem C3_counterexample :
    preprocess_text (preprocess_text "a @ b c d".data) ≠ preprocess_text "a @ b c d".data := by
  decide

/-- Claim C3 (amended): one application of `preprocess_text` need not be a
fixed point (character removal can create new double spaces), but a second
application always is: `preprocess_text ∘ preprocess_text` is idempotent. -/
theorem C3_preprocess_squared_idempotent (t : Str) :
    preprocess_text (preprocess_text (preprocess_text t)) =
      preprocess_text (preprocess_text t) :=
  preprocess_preprocess_fixed t

/-- Claim C4, as stated, is false: `_extract_from_pdf` returns
`text.strip()` as the text but computes `char_count = len(text)` from the
unstripped accumulator.  A single page `"Hello"` accumulates
`"Hello\n"`, so char_count is 6 while the returned text has length 5. -/
theorem C4_counterexample :
    (extract_from_pdf [some "Hello".data] []).char_count ≠
      ((extract_from_pdf [some "Hello".data] []).text).length := by
  decide

/-- Claim C4 (amended): for both extractors, `word_count` does equal the
number of whitespace tokens of the returned (stripped) text, but
`char_count` is the length of the raw accumulated text before the final
strip, hence only an upper bound on the returned text's length. -/
theorem C4_counts (pageTexts : List (Option Str)) (fallbackPageTexts : List Str)
    (paragraphs : List Str) :
    ((extract_from_pdf pageTexts fallbackPageTexts).word_count =
        numTok (extract_from_pdf pageTexts fallbackPageTexts).text ∧
      (extract_from_pdf pageTexts fallbackPageTexts).char_count =
        (pdfRawText pageTexts fallbackPageTexts).length ∧
      ((extract_from_pdf pageTexts fallbackPageTexts).text).length ≤
        (extract_from_pdf pageTexts fallbackPageTexts).char_count) ∧
    ((extract_from_docx paragraphs).word_count = numTok (extract_from_docx paragraphs).text ∧
      (extract_from_docx paragraphs).char_count = (docxRawText paragraphs).length ∧
      ((extract_from_docx paragraphs).text).length ≤ (extract_from_docx paragraphs).char_count) := by
  refine ⟨⟨?_, rfl, ?_⟩, ⟨?_, rfl, ?_⟩⟩
  · show numTok (pdfRawText pageTexts fallbackPageTexts) =
      numTok (pyStrip (pdfRawText pageTexts fallbackPageTexts))
    rw [numTok_pyStrip]
  · exact List.Sublist.length_le (pyStrip_sublist _)
  · show numTok (docxRawText paragraphs) = numTok (pyStrip (docxRawText paragraphs))
    rw [numTok_pyStrip]
  · exact List.Sublist.length_le (pyStrip_sublist _)

/-- Claim C5, as stated, is false: besides the three listed steps the code
also strips leading and trailing whitespace from the joined result, which
is observable on `" a b c d"` (kept line with a leading space). -/
theorem C5_counterexample :
    preprocess_text " a b c d".data ≠ preprocess_text_spec " a b c d".data := by
  decide

/-- Claim C5 (amended): `preprocess_text` performs exactly the three steps
the spec lists (collapse whitespace runs, remove characters outside word
characters, whitespace and the six punctuation marks, drop lines with 3 or
fewer tokens) followed by one more step: stripping leading and trailing
whitespace from the joined remaining lines. -/
theorem C5_preprocess_steps (t : Str) :
    preprocess_text t = pyStrip (preprocess_text_spec t) := by
  have hf : ∀ lines : List Str,
      lines.filter (fun line => decide (3 < numTok line)) =
      lines.filter (fun line => decide (¬ (numTok line ≤ 3))) := by
    intro lines
    apply List.filter_congr
    intro x _
    rw [decide_eq_decide]
    omega
  simp only [preprocess_text, preprocess_text_spec, hf]

/-- Claim C6: for any method other than `"extractive"`, `"abstractive"` and
`"hybrid"`, `generate_summary` raises `ValueError` (invalid method) and
returns no result, for any input text and any summarization backends. -/
theorem C6_invalid_method (exS : Str → Nat → Str) (abS : Str → Str)
    (t method : Str) (h1 : method ≠ "extractive".data)
    (h2 : method ≠ "abstractive".data) (h3 : method ≠ "hybrid".data) :
    generate_summary exS abS t method = .error .valueError := by
  simp only [generate_summary]
  rw [if_neg h1, if_neg h2, if_neg h3]

/-- Witness for claim C6 at the unknown method `"foo"`. -/
theorem C6_invalid_method_witness :
    ("foo".data ≠ "extractive".data ∧ "foo".data ≠ "abstractive".data ∧
      "foo".data ≠ "hybrid".data) ∧
    generate_summary stubExS stubAbS "a b".data "foo".data = .error .valueError :=
  ⟨⟨by decide, by decide, by decide⟩,
    C6_invalid_method stubExS stubAbS "a b".data "foo".data
      (by decide) (by decide) (by decide)⟩

/-- Claim C7: on any path the filesystem says does not exist,
`extract_text` fails with `FileNotFoundError`, before any extension or
format handling, whatever the extractors would do. -/
theorem C7_not_found (fsE : Str → Bool)
    (pdfExtract docxExtract : Str → Except PyError ExtractResult)
    (p : Str) (h : fsE p = false) :
    extract_text fsE pdfExtract docxExtract p = .error .fileNotFoundError := by
  simp only [extract_text]
  rw [if_neg (by simp [h])]

/-- Witness for claim C7: a missing `.pdf` path. -/
theorem C7_not_found_witness :
    fsNone "doc.pdf".data = false ∧
    extract_text fsNone stubPdfExtract stubDocxExtract "doc.pdf".data =
      .error .fileNotFoundError :=
  ⟨rfl, C7_not_found fsNone stubPdfExtract stubDocxExtract "doc.pdf".data rfl⟩

/-- Claim C8: on any existing path whose lower-cased suffix is neither
`".pdf"` nor `".docx"`, `extract_text` fails with `ValueError`
(unsupported format). -/
theorem C8_unsupported (fsE : Str → Bool)
    (pdfExtract docxExtract : Str → Except PyError ExtractResult)
    (p : Str) (h : fsE p = true)
    (h1 : suffixLower p ≠ ".pdf".data) (h2 : suffixLower p ≠ ".docx".data) :
    extract_text fsE pdfExtract docxExtract p = .error .valueError := by
  simp only [extract_text]
  rw [if_pos h, if_neg h1, if_neg h2]

/-- Witness for claim C8: an existing `.txt` path. -/
theorem C8_unsupported_witness :
    (fsAll "notes.txt".data = true ∧ suffixLower "notes.txt".data ≠ ".pdf".data ∧
      suffixLower "notes.txt".data ≠ ".docx".data) ∧
    extract_text fsAll stubPdfExtract stubDocxExtract "notes.txt".data =
      .error .valueError :=
  ⟨⟨rfl, by decide, by decide⟩,
    C8_unsupported fsAll stubPdfExtract stubDocxExtract "notes.txt".data
      rfl (by decide) (by decide)⟩

/-- Claim C9, as stated, is false only at degenerate inputs: on the empty
string the hybrid path still reaches the `compression_ratio` division by
`len(text.split()) == 0` and raises, producing no summary at all. -/
theorem C9_counterexample :
    ¬ ∃ r : SummaryResult,
      generate_summary stubExS stubAbS "".data "hybrid".data = .ok r := by
  rintro ⟨r, hr⟩
  have h : generate_summary stubExS stubAbS "".data "hybrid".data =
      .error .zeroDivisionError := rfl
  rw [h] at hr
  exact Except.noConfusion hr

/-- Claim C9 (amended): for every input text with at least one whitespace
token, `generate_summary` with method `"hybrid"` returns the summary
obtained by running the extractive summarizer on the preprocessed text
with sentence budget 10 and feeding its output to the abstractive
summarizer. -/
theorem C9_hybrid (exS : Str → Nat → Str) (abS : Str → Str)
    (t : Str) (h : numTok t ≠ 0) :
    generate_summary exS abS t "hybrid".data =
      .ok ⟨abS (exS (preprocess_text t) 10), numTok t,
           numTok (abS (exS (preprocess_text t) 10)),
           (numTok (abS (exS (preprocess_text t) 10)) : ℚ) / (numTok t : ℚ),
           "hybrid".data⟩ := by
  have hstep : generate_summary exS abS t "hybrid".data =
      if numTok t = 0 then .error .zeroDivisionError
      else .ok ⟨abS (exS (preprocess_text t) 10), numTok t,
                numTok (abS (exS (preprocess_text t) 10)),
                (numTok (abS (exS (preprocess_text t) 10)) : ℚ) / (numTok t : ℚ),
                "hybrid".data⟩ := rfl
  rw [hstep, if_neg h]

/-- Witness for the amended claim C9 at a concrete text. -/
theorem C9_hybrid_witness :
    numTok "a b c".data ≠ 0 ∧
    generate_summary stubExS stubAbS "a b c".data "hybrid".data =
      .ok ⟨stubAbS (stubExS (preprocess_text "a b c".data) 10), numTok "a b c".data,
           numTok (stubAbS (stubExS (preprocess_text "a b c".data) 10)),
           (numTok (stubAbS (stubExS (preprocess_text "a b c".data) 10)) : ℚ) /
             (numTok "a b c".data : ℚ),
           "hybrid".data⟩ :=
  ⟨by decide, C9_hybrid stubExS stubAbS "a b c".data (by decide)⟩

/-- Claim C10: suffix matching is case-insensitive.  On any existing path
whose lower-cased suffix is `".pdf"` the pdf extractor is called, and on
any whose lower-cased suffix is `".docx"` the docx extractor is called. -/
theorem C10_case_insensitive (fsE : Str → Bool)
    (pdfExtract docxExtract : Str → Except PyError ExtractResult)
    (p : Str) (h : fsE p = true) :
    (suffixLower p = ".pdf".data →
      extract_text fsE pdfExtract docxExtract p = pdfExtract p) ∧
    (suffixLower p = ".docx".data →
      extract_text fsE pdfExtract docxExtract p = docxExtract p) := by
  constructor
  · intro hs
    simp only [extract_text]
    rw [if_pos h, if_pos hs]
  · intro hs
    simp only [extract_text]
    rw [if_pos h]
    have hpdf : suffixLower p ≠ ".pdf".data := by
      rw [hs]
      decide
    rw [if_neg hpdf, if_pos hs]

/-- Witness for claim C10 at the upper-cased paths `"doc.PDF"` and
`"report.Docx"`. -/
theorem C10_case_insensitive_witness :
    extract_text fsAll stubPdfExtract stubDocxExtract "doc.PDF".data =
      stubPdfExtract "doc.PDF".data ∧
    extract_text fsAll stubPdfExtract stubDocxExtract "report.Docx".data =
      stubDocxExtract "report.Docx".data :=
  ⟨(C10_case_insensitive fsAll stubPdfExtract stubDocxExtract "doc.PDF".data rfl).1
      (by decide),
    (C10_case_insensitive fsAll stubPdfExtract stubDocxExtract "report.Docx".data rfl).2
      (by decide)⟩
